import Mathlib

set_option maxHeartbeats 1000000

/-!
Verification of the weechat binary-protocol decoder (`src/weechat_parser/src/lib.rs`).

The Rust source is shallowly embedded: byte buffers are `List Nat` (each entry a
`u8`; the primitive readers reduce entries `% 256` exactly where the source reads
machine bytes), fallible operations return a `PResult`, and Rust panics (slice
index out of bounds, `unwrap` of `None`, `Vec::with_capacity` capacity overflow)
are the explicit `PResult.panic` outcome.  The zlib inflater (external crate
`flate2`) is an abstract function parameter `inflate`.  Recursion through the
`hda` tag is bounded by an explicit fuel parameter; `PResult.fuelOut` marks fuel
exhaustion and is unreachable for the fuel values used by the top-level drivers.
-/

/-- Modelled from the spec: the error type lives in `src/errors.rs`, which is not
under `src/`.  Spec section 4.1 describes a single error type with kinds
`MalformedBinaryParse` (structural violations, including truncated buffers and
numeric parse failures, to which the wrapped `io::Error` of a short `Cursor` read
converts), `UnknownType` (carrying a context string and the offending raw tag
text), and wrapped lower-level failures. -/
inductive WeechatParseError where
  | malformedBinaryParse : String → WeechatParseError
  | unknownType : String → String → WeechatParseError
  | wrapped : String → WeechatParseError
deriving DecidableEq

/-- Outcome of running a piece of the Rust decoder: a value, a returned
`WeechatParseError`, a Rust panic (which aborts the computation without
producing a value), or exhaustion of the artificial recursion fuel. -/
inductive PResult (α : Type) where
  | ok : α → PResult α
  | err : WeechatParseError → PResult α
  | panic : PResult α
  | fuelOut : PResult α
deriving DecidableEq

/-- Whether a `PResult` is a returned error (as opposed to ok, panic or fuel). -/
def PResult.isErr {α : Type} : PResult α → Bool
  | .err _ => true
  | _ => false

/-- Whether a `PResult` is an `UnknownType` error. -/
def PResult.isUnknownTypeErr {α : Type} : PResult α → Bool
  | .err (.unknownType _ _) => true
  | _ => false

/-- `read_u8`: first byte of the buffer; a short read is an `io::Error` that the
error module converts to a parse error (spec taxonomy: truncated buffer). -/
def read_u8 (buffer : List Nat) : PResult Nat :=
  match buffer with
  | [] => .err (.malformedBinaryParse "buffer too short")
  | b :: _ => .ok (b % 256)

/-- `read_u32`: big-endian unsigned 32-bit read of the first four bytes. -/
def read_u32 (buffer : List Nat) : PResult Nat :=
  match buffer with
  | b0 :: b1 :: b2 :: b3 :: _ =>
      .ok ((((b0 % 256) * 256 + b1 % 256) * 256 + b2 % 256) * 256 + b3 % 256)
  | _ => .err (.malformedBinaryParse "buffer too short")

/-- Reinterpret an unsigned 32-bit value as the signed `i32` it encodes. -/
def toI32 (n : Nat) : Int := if n < 2 ^ 31 then (n : Int) else (n : Int) - 2 ^ 32

/-- `read_i32`: big-endian signed 32-bit read. -/
def read_i32 (buffer : List Nat) : PResult Int :=
  match read_u32 buffer with
  | .ok n => .ok (toI32 n)
  | .err e => .err e
  | .panic => .panic
  | .fuelOut => .fuelOut

/-- Wrapping (two's-complement) reduction of an integer into `i32` range,
modelling Rust release-mode `i32` overflow. -/
def wrap32 (x : Int) : Int := (x + 2 ^ 31) % 2 ^ 32 - 2 ^ 31

/-- The value of `x as usize` for an `i32` value `x` on a 64-bit target:
negative values sign-extend. -/
def i32AsUsize (x : Int) : Nat := if 0 ≤ x then x.toNat else (x + 2 ^ 64).toNat

/-- The Rust slice `&l[a..b]`.  Callers model the bounds check (`a ≤ b ≤ len`)
explicitly and panic when it fails. -/
def sliceBytes (l : List Nat) (a b : Nat) : List Nat := (l.take b).drop a

/-- Is the byte a UTF-8 continuation byte (`0x80..=0xBF`)? -/
def isCont (b : Nat) : Bool := 128 ≤ b && b ≤ 191

/-- Valid ranges of the second byte of a three-byte UTF-8 sequence. -/
def cont2ok (b c1 : Nat) : Bool :=
  if b = 224 then 160 ≤ c1 && c1 ≤ 191
  else if b = 237 then 128 ≤ c1 && c1 ≤ 159
  else isCont c1

/-- Valid ranges of the second byte of a four-byte UTF-8 sequence. -/
def cont4ok (b c1 : Nat) : Bool :=
  if b = 240 then 144 ≤ c1 && c1 ≤ 191
  else if b = 244 then 128 ≤ c1 && c1 ≤ 143
  else isCont c1

/-- The U+FFFD replacement character. -/
def replChar : Char := Char.ofNat 65533

/-- `String::from_utf8_lossy`: UTF-8 decoding with the replacement-of-maximal-
subparts policy.  Each maximal invalid subpart (an invalid leading byte, or the
longest valid prefix of a sequence whose next byte is invalid or missing)
becomes one U+FFFD. -/
def utf8LossyAux : List Nat → List Char
  | [] => []
  | b :: rest =>
    if b < 128 then Char.ofNat b :: utf8LossyAux rest
    else if 194 ≤ b && b ≤ 223 then
      match rest with
      | [] => [replChar]
      | c1 :: rest1 =>
        if isCont c1 then Char.ofNat ((b - 192) * 64 + (c1 - 128)) :: utf8LossyAux rest1
        else replChar :: utf8LossyAux (c1 :: rest1)
    else if 224 ≤ b && b ≤ 239 then
      match rest with
      | [] => [replChar]
      | c1 :: rest1 =>
        if cont2ok b c1 then
          match rest1 with
          | [] => [replChar]
          | c2 :: rest2 =>
            if isCont c2 then
              Char.ofNat (((b - 224) * 64 + (c1 - 128)) * 64 + (c2 - 128)) :: utf8LossyAux rest2
            else replChar :: utf8LossyAux (c2 :: rest2)
        else replChar :: utf8LossyAux (c1 :: rest1)
    else if 240 ≤ b && b ≤ 244 then
      match rest with
      | [] => [replChar]
      | c1 :: rest1 =>
        if cont4ok b c1 then
          match rest1 with
          | [] => [replChar]
          | c2 :: rest2 =>
            if isCont c2 then
              match rest2 with
              | [] => [replChar]
              | c3 :: rest3 =>
                if isCont c3 then
                  Char.ofNat
                      ((((b - 240) * 64 + (c1 - 128)) * 64 + (c2 - 128)) * 64 + (c3 - 128)) ::
                    utf8LossyAux rest3
                else replChar :: utf8LossyAux (c3 :: rest3)
            else replChar :: utf8LossyAux (c2 :: rest2)
        else replChar :: utf8LossyAux (c1 :: rest1)
    else replChar :: utf8LossyAux rest

/-- `String::from_utf8_lossy(..).into_owned()` on a byte slice. -/
def fromUtf8Lossy (l : List Nat) : String := String.mk (utf8LossyAux l)

/-- Accumulate decimal digits; `none` on the first non-digit character. -/
def decDigitsAux : List Char → Nat → Option Nat
  | [], acc => some acc
  | c :: cs, acc =>
    if '0' ≤ c ∧ c ≤ '9' then decDigitsAux cs (acc * 10 + (c.toNat - 48)) else none

/-- `i64::from_str_radix(s, 10)`: optional sign, at least one digit, all decimal
digits, value within `i64` range. -/
def parseI64 (s : String) : Option Int :=
  match s.data with
  | [] => none
  | '+' :: ds =>
    match ds, decDigitsAux ds 0 with
    | [], _ => none
    | _ :: _, some m => if (m : Int) ≤ 2 ^ 63 - 1 then some (m : Int) else none
    | _ :: _, none => none
  | '-' :: ds =>
    match ds, decDigitsAux ds 0 with
    | [], _ => none
    | _ :: _, some m => if (m : Int) ≤ 2 ^ 63 then some (-(m : Int)) else none
    | _ :: _, none => none
  | ds =>
    match decDigitsAux ds 0 with
    | some m => if (m : Int) ≤ 2 ^ 63 - 1 then some (m : Int) else none
    | none => none

/-- Helper for `splitChar`: accumulates the current piece in reverse. -/
def splitCharAux (c : Char) : List Char → List Char → List String
  | [], acc => [String.mk acc.reverse]
  | x :: xs, acc =>
    if x = c then String.mk acc.reverse :: splitCharAux c xs []
    else splitCharAux c xs (x :: acc)

/-- Rust `str::split(char)`: `n` separators yield `n + 1` pieces; the empty
string yields one empty piece. -/
def splitChar (s : String) (c : Char) : List String := splitCharAux c s.data []

/-- `name.match_indices('/').count()`: the number of slash characters. -/
def slashCount (s : String) : Nat := (s.data.filter (fun c => c == '/')).length

/-- The decoded value type (`WeechatData` in the source, `derive(PartialEq)`). -/
inductive WeechatData where
  | Char : Char → WeechatData
  | Int : Int → WeechatData
  | Long : Int → WeechatData
  | String : String → WeechatData
  | StringNull : WeechatData
  | Buffer : String → WeechatData
  | BufferNull : WeechatData
  | Pointer : String → WeechatData
  | Time : String → WeechatData
  | Array : List WeechatData → WeechatData
  | Hdata : String → List WeechatData → List (List (String × WeechatData)) → WeechatData

/-- One hdata row: the source's `HashMap<String, WeechatData>` modelled as an
association list with key-replacing insert. -/
abbrev HRow := List (String × WeechatData)

/-- A decoded message: identifier plus the ordered decoded values. -/
structure WeechatMessage where
  id : String
  data : List WeechatData
deriving Inhabited

/-- `HashMap::insert`: replace the value of an existing key, else append. -/
def insert_assoc (m : HRow) (k : String) (v : WeechatData) : HRow :=
  match m with
  | [] => [(k, v)]
  | (k0, v0) :: rest => if k0 = k then (k, v) :: rest else (k0, v0) :: insert_assoc rest k v

/-- `Option::unwrap`: panics on `None`. -/
def unwrapOpt {α : Type} : Option α → PResult α
  | some a => .ok a
  | none => .panic

/-- `read_string_8bit_length`: one length byte `n`, then `n` payload bytes
decoded lossily.  The slice `&buffer[1..n+1]` panics when the buffer holds fewer
than `n + 1` bytes. -/
def read_string_8bit_length (buffer : List Nat) : PResult (Nat × String) :=
  match read_u8 buffer with
  | .ok length =>
    if length + 1 ≤ buffer.length then
      .ok (length + 1, fromUtf8Lossy (sliceBytes buffer 1 (length + 1)))
    else .panic
  | .err e => .err e
  | .panic => .panic
  | .fuelOut => .fuelOut

/-- `read_string_32bit_length`: four-byte big-endian signed length `size`;
`0` is the present empty string, `-1` is the null sentinel, otherwise the slice
`&buffer[4..(size + 4) as usize]` is decoded lossily.  The `as usize` cast
sign-extends negative values, and the slice panics whenever the resulting range
is not `4 ≤ end ≤ len`. -/
def read_string_32bit_length (buffer : List Nat) : PResult (Nat × Option String) :=
  match read_i32 buffer with
  | .ok size =>
    if size = 0 then .ok (4, some "")
    else if size = -1 then .ok (4, none)
    else
      let e := i32AsUsize (wrap32 (size + 4))
      if 4 ≤ e ∧ e ≤ buffer.length then .ok (e, some (fromUtf8Lossy (sliceBytes buffer 4 e)))
      else .panic
  | .err e => .err e
  | .panic => .panic
  | .fuelOut => .fuelOut

/-- `read_long`: 8-bit-length-prefixed digit string parsed as an `i64`. -/
def read_long (buffer : List Nat) : PResult (Nat × Int) :=
  match read_string_8bit_length buffer with
  | .ok (e, s) =>
    match parseI64 s with
    | some v => .ok (e, v)
    | none => .err (.malformedBinaryParse "invalid long value")
  | .err e => .err e
  | .panic => .panic
  | .fuelOut => .fuelOut

/-- `read_pointer`: 8-bit-length-prefixed digit string with `'0'` then `'x'`
inserted at the front (no case conversion). -/
def read_pointer (buffer : List Nat) : PResult (Nat × String) :=
  match read_string_8bit_length buffer with
  | .ok (e, v) => .ok (e, String.mk ('0' :: 'x' :: v.data))
  | .err e => .err e
  | .panic => .panic
  | .fuelOut => .fuelOut

/-- `read_time`: same wire shape as `read_long`, kept as the raw string. -/
def read_time (buffer : List Nat) : PResult (Nat × String) :=
  read_string_8bit_length buffer

/-- `get_element_type`: the first three bytes decoded lossily; the slice
`&buffer[..3]` panics on a shorter buffer. -/
def get_element_type (buffer : List Nat) : PResult String :=
  if 3 ≤ buffer.length then .ok (fromUtf8Lossy (buffer.take 3)) else .panic

/-- The `"str"` element loop of `read_array`. -/
def array_strs (buffer : List Nat) : Nat → Nat → PResult (Nat × List WeechatData)
  | 0, position => .ok (position, [])
  | n + 1, position =>
    match read_string_32bit_length (buffer.drop position) with
    | .ok (len, v) =>
      match array_strs buffer n (position + len) with
      | .ok (p, acc) =>
        .ok (p, (match v with | some s => WeechatData.String s | none => WeechatData.StringNull) :: acc)
      | .err e => .err e
      | .panic => .panic
      | .fuelOut => .fuelOut
    | .err e => .err e
    | .panic => .panic
    | .fuelOut => .fuelOut

/-- The `"int"` element loop of `read_array`. -/
def array_ints (buffer : List Nat) : Nat → Nat → PResult (Nat × List WeechatData)
  | 0, position => .ok (position, [])
  | n + 1, position =>
    match read_i32 (buffer.drop position) with
    | .ok v =>
      match array_ints buffer n (position + 4) with
      | .ok (p, acc) => .ok (p, WeechatData.Int v :: acc)
      | .err e => .err e
      | .panic => .panic
      | .fuelOut => .fuelOut
    | .err e => .err e
    | .panic => .panic
    | .fuelOut => .fuelOut

/-- The tag text placed in the `UnknownType` error by `read_array`, from the
source's format string `found array type` with the debug-quoted tag.  Debug
escaping of control characters inside the tag is elided. -/
def found_array_type (t : String) : String := "found array type \"" ++ t ++ "\""

/-- `read_array`: 3-byte element tag, 4-byte signed count, then that many
elements of the tagged type.  `Vec::with_capacity(count as usize)` runs before
the tag dispatch; a negative count sign-extends past `isize::MAX` bytes and
panics with capacity overflow. -/
def read_array (buffer : List Nat) : PResult (Nat × List WeechatData) :=
  match get_element_type buffer with
  | .ok array_type =>
    match read_i32 (buffer.drop 3) with
    | .ok count =>
      if count < 0 then .panic
      else
        match array_type with
        | "str" => array_strs buffer count.toNat 7
        | "int" => array_ints buffer count.toNat 7
        | _ => .err (.unknownType "array isn't implemented for type" (found_array_type array_type))
    | .err e => .err e
    | .panic => .panic
    | .fuelOut => .fuelOut
  | .err e => .err e
  | .panic => .panic
  | .fuelOut => .fuelOut

/-- The `keys_owned.split(',')` loop of `read_hdata`: each chunk is split at
`':'` and indexed at `[0]` and `[1]`; a chunk without a colon panics at `key[1]`. -/
def parse_keys_chunks : List String → PResult (List (String × String))
  | [] => .ok []
  | chunk :: rest =>
    match splitChar chunk ':' with
    | k0 :: k1 :: _ =>
      match parse_keys_chunks rest with
      | .ok ks => .ok ((k0, k1) :: ks)
      | .err e => .err e
      | .panic => .panic
      | .fuelOut => .fuelOut
    | _ => .panic

/-- The key-declaration string parsed into `(name, type)` pairs. -/
def parse_keys (s : String) : PResult (List (String × String)) :=
  parse_keys_chunks (splitChar s ',')

/-- The per-row pointer loop of `read_hdata`: `pc` consecutive `ptr` values. -/
def read_row_pointers (buffer : List Nat) : Nat → Nat → PResult (Nat × List WeechatData)
  | 0, position => .ok (position, [])
  | n + 1, position =>
    match read_pointer (buffer.drop position) with
    | .ok (l, v) =>
      match read_row_pointers buffer n (position + l) with
      | .ok (p, ps) => .ok (p, WeechatData.Pointer v :: ps)
      | .err e => .err e
      | .panic => .panic
      | .fuelOut => .fuelOut
    | .err e => .err e
    | .panic => .panic
    | .fuelOut => .fuelOut

/-- The per-row field loop of `read_hdata`: one value per declared key, decoded
by the element decoder `pe` in declared order and inserted into the row map. -/
def hdata_fields (pe : String → List Nat → PResult (Nat × WeechatData)) (buffer : List Nat) :
    List (String × String) → Nat → HRow → PResult (Nat × HRow)
  | [], position, row => .ok (position, row)
  | (kname, vtype) :: rest, position, row =>
    match pe vtype (buffer.drop position) with
    | .ok (l, v) => hdata_fields pe buffer rest (position + l) (insert_assoc row kname v)
    | .err e => .err e
    | .panic => .panic
    | .fuelOut => .fuelOut

/-- The row loop of `read_hdata`: for each row, `pc` pointers (flattened into a
single list across all rows, in row order) followed by the declared fields. -/
def hdata_rows (pe : String → List Nat → PResult (Nat × WeechatData)) (buffer : List Nat)
    (keys : List (String × String)) (pc : Nat) :
    Nat → Nat → PResult (Nat × List WeechatData × List HRow)
  | 0, position => .ok (position, [], [])
  | r + 1, position =>
    match read_row_pointers buffer pc position with
    | .ok (p1, ptrs) =>
      match hdata_fields pe buffer keys p1 [] with
      | .ok (p2, row) =>
        match hdata_rows pe buffer keys pc r p2 with
        | .ok (p3, restPtrs, restRows) => .ok (p3, ptrs ++ restPtrs, row :: restRows)
        | .err e => .err e
        | .panic => .panic
        | .fuelOut => .fuelOut
      | .err e => .err e
      | .panic => .panic
      | .fuelOut => .fuelOut
    | .err e => .err e
    | .panic => .panic
    | .fuelOut => .fuelOut

/-- `read_hdata`: `str` path name (pointer count per row is `slashCount + 1`),
`str` key declaration, 4-byte signed row count, then the rows.  The two
`unwrap()` calls panic on null strings; `(row_count as usize)` feeding
`Vec::with_capacity` panics (capacity overflow) for negative counts.
Allocation-size panics for astronomically large positive `pointer_count *
row_count` products (beyond addressable memory) are not modelled. -/
def read_hdata (pe : String → List Nat → PResult (Nat × WeechatData)) (buffer : List Nat) :
    PResult (Nat × String × List WeechatData × List HRow) :=
  match read_string_32bit_length buffer with
  | .ok (name_len, name_raw) =>
    match unwrapOpt name_raw with
    | .ok name =>
      match read_string_32bit_length (buffer.drop name_len) with
      | .ok (keys_len, keys_raw) =>
        match unwrapOpt keys_raw with
        | .ok keys_owned =>
          match read_i32 (buffer.drop (name_len + keys_len)) with
          | .ok row_count =>
            match parse_keys keys_owned with
            | .ok keys =>
              if row_count < 0 then .panic
              else
                match hdata_rows pe buffer keys (slashCount name + 1) row_count.toNat
                    (name_len + keys_len + 4) with
                | .ok (endp, pointers, rows) => .ok (endp, name, pointers, rows)
                | .err e => .err e
                | .panic => .panic
                | .fuelOut => .fuelOut
            | .err e => .err e
            | .panic => .panic
            | .fuelOut => .fuelOut
          | .err e => .err e
          | .panic => .panic
          | .fuelOut => .fuelOut
        | .err e => .err e
        | .panic => .panic
        | .fuelOut => .fuelOut
      | .err e => .err e
      | .panic => .panic
      | .fuelOut => .fuelOut
    | .err e => .err e
    | .panic => .panic
    | .fuelOut => .fuelOut
  | .err e => .err e
  | .panic => .panic
  | .fuelOut => .fuelOut

/-- `parse_element`: dispatch on the 3-character tag.  The first argument is
fuel bounding the nesting depth of `hda` values (the Rust recursion depth). -/
def parse_element : Nat → String → List Nat → PResult (Nat × WeechatData)
  | 0, _, _ => .fuelOut
  | pf + 1, element_type, buffer =>
    match element_type with
    | "chr" =>
      match read_u8 buffer with
      | .ok value =>
        if value.isValidChar then .ok (1, WeechatData.Char (Char.ofNat value))
        else .err (.malformedBinaryParse "Couldn't read char data")
      | .err e => .err e
      | .panic => .panic
      | .fuelOut => .fuelOut
    | "int" =>
      match read_i32 buffer with
      | .ok v => .ok (4, WeechatData.Int v)
      | .err e => .err e
      | .panic => .panic
      | .fuelOut => .fuelOut
    | "lon" =>
      match read_long buffer with
      | .ok (l, v) => .ok (l, WeechatData.Long v)
      | .err e => .err e
      | .panic => .panic
      | .fuelOut => .fuelOut
    | "str" =>
      match read_string_32bit_length buffer with
      | .ok (l, some s) => .ok (l, WeechatData.String s)
      | .ok (l, none) => .ok (l, WeechatData.StringNull)
      | .err e => .err e
      | .panic => .panic
      | .fuelOut => .fuelOut
    | "buf" =>
      match read_string_32bit_length buffer with
      | .ok (l, some s) => .ok (l, WeechatData.Buffer s)
      | .ok (l, none) => .ok (l, WeechatData.BufferNull)
      | .err e => .err e
      | .panic => .panic
      | .fuelOut => .fuelOut
    | "ptr" =>
      match read_pointer buffer with
      | .ok (l, v) => .ok (l, WeechatData.Pointer v)
      | .err e => .err e
      | .panic => .panic
      | .fuelOut => .fuelOut
    | "tim" =>
      match read_time buffer with
      | .ok (l, v) => .ok (l, WeechatData.Time v)
      | .err e => .err e
      | .panic => .panic
      | .fuelOut => .fuelOut
    | "hda" =>
      match read_hdata (fun t b => parse_element pf t b) buffer with
      | .ok (l, name, ptrs, rows) => .ok (l, WeechatData.Hdata name ptrs rows)
      | .err e => .err e
      | .panic => .panic
      | .fuelOut => .fuelOut
    | "arr" =>
      match read_array buffer with
      | .ok (l, vs) => .ok (l, WeechatData.Array vs)
      | .err e => .err e
      | .panic => .panic
      | .fuelOut => .fuelOut
    | _ => .err (.unknownType "Got unfamiliar type" element_type)

/-- The `while position < length` loop of `parse_data`.  Each iteration advances
`position` by at least 3, so the loop runs at most `length` times and the gas
value `length + 1` used by `parse_data` can never be exhausted. -/
def parse_items (pf : Nat) (buffer : List Nat) (length : Nat) :
    Nat → Nat → PResult (List WeechatData)
  | 0, position => if position < length then .fuelOut else .ok []
  | g + 1, position =>
    if position < length then
      match get_element_type (buffer.drop position) with
      | .ok t =>
        match parse_element pf t (buffer.drop (position + 3)) with
        | .ok (l, v) =>
          match parse_items pf buffer length g (position + 3 + l) with
          | .ok acc => .ok (v :: acc)
          | .err e => .err e
          | .panic => .panic
          | .fuelOut => .fuelOut
        | .err e => .err e
        | .panic => .panic
        | .fuelOut => .fuelOut
      | .err e => .err e
      | .panic => .panic
      | .fuelOut => .fuelOut
    else .ok []

/-- `parse_data`: decode tagged elements until `length` bytes are consumed. -/
def parse_data (pf : Nat) (buffer : List Nat) (length : Nat) : PResult (List WeechatData) :=
  parse_items pf buffer length (length + 1) 0

/-- `get_length`: the declared total frame length (first four bytes, unsigned). -/
def get_length (buffer : List Nat) : PResult Nat := read_u32 buffer

/-- `get_compression`: the flag byte at offset 4; an absent byte is an error. -/
def get_compression (buffer : List Nat) : PResult Bool :=
  match buffer.get? 4 with
  | some flag => .ok (flag % 256 == 1)
  | none => .err (.malformedBinaryParse "Could not find compression flag")

/-- `get_message_type`: the `str`-encoded message identifier. -/
def get_message_type (buffer : List Nat) : PResult (Nat × Option String) :=
  read_string_32bit_length buffer

/-- `get_raw_data`: position a cursor at byte offset 5 and inflate the remainder,
unconditionally — the compression flag at offset 4 is never consulted.  The
zlib inflater itself is the abstract parameter `inflate`. -/
def get_raw_data (inflate : List Nat → PResult (List Nat)) (buffer : List Nat) :
    PResult (List Nat) :=
  inflate (buffer.drop 5)

/-- `WeechatMessage::from_raw_message`: inflate, read the identifier (null maps
to `"test"`), then decode the remaining payload. -/
def from_raw_message (inflate : List Nat → PResult (List Nat)) (pf : Nat)
    (buffer : List Nat) : PResult WeechatMessage :=
  match get_raw_data inflate buffer with
  | .ok raw_data =>
    match get_message_type raw_data with
    | .ok (len, id) =>
      match parse_data pf (raw_data.drop len) (raw_data.length - len) with
      | .ok data => .ok { id := (match id with | some s => s | none => "test"), data := data }
      | .err e => .err e
      | .panic => .panic
      | .fuelOut => .fuelOut
    | .err e => .err e
    | .panic => .panic
    | .fuelOut => .fuelOut
  | .err e => .err e
  | .panic => .panic
  | .fuelOut => .fuelOut

/-- The observable state of the `start_parser` worker: its byte accumulator, the
results sent to the consumer so far, and whether it has stopped (returned after
sending an error, or died in a panic / by exhausting the recursion fuel). -/
structure PState where
  buffer : List Nat
  outputs : List (Except WeechatParseError WeechatMessage)
  halted : Bool

/-- The inner `while buffer.len() > 4` loop of `start_parser`.  When a complete
frame is present it is drained and decoded: a decoded message is sent and the
loop continues; an error is sent and the worker returns; a panic kills the
worker without sending.  The loop fuel only guards the case of a frame whose
declared length is 0 decoding successfully forever (a genuinely divergent run of
the source); exhaustion halts the model without further output, matching the
fact that such a worker never consumes another chunk. -/
def drainLoop (inflate : List Nat → PResult (List Nat)) (pf : Nat) :
    Nat → List Nat → List (Except WeechatParseError WeechatMessage) → PState
  | 0, buffer, outs => ⟨buffer, outs, true⟩
  | d + 1, buffer, outs =>
    if 4 < buffer.length then
      match get_length buffer with
      | .ok message_length =>
        if message_length ≤ buffer.length then
          match from_raw_message inflate pf (buffer.take message_length) with
          | .ok m => drainLoop inflate pf d (buffer.drop message_length) (outs ++ [Except.ok m])
          | .err e => ⟨buffer.drop message_length, outs ++ [Except.error e], true⟩
          | .panic => ⟨buffer.drop message_length, outs, true⟩
          | .fuelOut => ⟨buffer.drop message_length, outs, true⟩
        else ⟨buffer, outs, false⟩
      | .err e => ⟨buffer, outs ++ [Except.error e], true⟩
      | .panic => ⟨buffer, outs, true⟩
      | .fuelOut => ⟨buffer, outs, true⟩
    else ⟨buffer, outs, false⟩

/-- One `recv` iteration of `start_parser`: append the chunk to the accumulator
and drain complete frames.  A halted worker never observes the chunk. -/
def feed_chunk (inflate : List Nat → PResult (List Nat)) (pf : Nat) (st : PState)
    (chunk : List Nat) : PState :=
  if st.halted then st
  else drainLoop inflate pf ((st.buffer ++ chunk).length + 1) (st.buffer ++ chunk) st.outputs

/-- The worker state before the first chunk. -/
def init_state : PState := ⟨[], [], false⟩

/-- Run the `start_parser` worker over a finite sequence of chunks, starting
from the empty accumulator (the channel closes after the last chunk). -/
def run_chunks (inflate : List Nat → PResult (List Nat)) (pf : Nat)
    (chunks : List (List Nat)) : PState :=
  chunks.foldl (feed_chunk inflate pf) init_state

/-- The result the worker sends for one complete frame (total, for stating the
drain lemma; under `GoodFrame` it is always `Except.ok`). -/
def emit (inflate : List Nat → PResult (List Nat)) (pf : Nat) (f : List Nat) :
    Except WeechatParseError WeechatMessage :=
  match from_raw_message inflate pf f with
  | .ok m => Except.ok m
  | .err e => Except.error e
  | .panic => Except.error (.wrapped "worker aborted")
  | .fuelOut => Except.error (.wrapped "worker aborted")

/-- Concatenation of a list of frames into one byte stream. -/
def joinFrames : List (List Nat) → List Nat
  | [] => []
  | f :: fs => f ++ joinFrames fs

/-- A well-formed frame: at least the 5 header bytes, a length prefix declaring
exactly its own size, and a successful decode. -/
def GoodFrame (inflate : List Nat → PResult (List Nat)) (pf : Nat) (f : List Nat) : Prop :=
  5 ≤ f.length ∧ get_length f = .ok f.length ∧ ∃ m, from_raw_message inflate pf f = .ok m

/-- A proper prefix of a well-formed frame (or nothing): what may remain in the
accumulator between chunks. -/
def TailFragment (inflate : List Nat → PResult (List Nat)) (pf : Nat) (p : List Nat) : Prop :=
  p = [] ∨ ∃ f, GoodFrame inflate pf f ∧ p.length < f.length ∧ p = f.take p.length

/-- Big-endian 4-byte encoding of an unsigned 32-bit value (statement helper
describing the wire layout quantified over in the array claims). -/
def encode_u32 (n : Nat) : List Nat :=
  [n / 2 ^ 24 % 256, n / 2 ^ 16 % 256, n / 2 ^ 8 % 256, n % 256]

/-- Big-endian 4-byte encoding of a signed 32-bit value. -/
def encode_i32 (v : Int) : List Nat := encode_u32 (v % 2 ^ 32).toNat

/-! ## Supporting lemmas -/

theorem read_u32_encode (n : Nat) (rest : List Nat) (h : n < 2 ^ 32) :
    read_u32 (encode_u32 n ++ rest) = .ok n := by
  show PResult.ok _ = _
  congr 1
  omega

theorem read_i32_encode (v : Int) (rest : List Nat) (h1 : -2 ^ 31 ≤ v) (h2 : v < 2 ^ 31) :
    read_i32 (encode_i32 v ++ rest) = .ok v := by
  have h3 := read_u32_encode ((v % 2 ^ 32).toNat) rest (by omega)
  unfold read_i32 encode_i32
  simp only [h3]
  show PResult.ok (toI32 (v % 2 ^ 32).toNat) = PResult.ok v
  congr 1
  unfold toI32
  split <;> omega

theorem read_i32_encode_nat (n : Nat) (rest : List Nat) (h : n < 2 ^ 31) :
    read_i32 (encode_u32 n ++ rest) = .ok (n : Int) := by
  have h3 := read_u32_encode n rest (by omega)
  unfold read_i32
  simp only [h3]
  show PResult.ok (toI32 n) = PResult.ok (n : Int)
  unfold toI32
  rw [if_pos h]

/-! ## Claim theorems -/

/-- C3: decoding a `str` or `buf` element whose 4-byte big-endian length field
is `0` yields a present empty value (`String ""` / `Buffer ""`) consuming 4
bytes, a length field of `-1` yields the explicit null variant (`StringNull` /
`BufferNull`) consuming 4 bytes, and these two results are never equal. -/
theorem c3_str_empty_vs_null :
    (∀ rest : List Nat, read_string_32bit_length (0 :: 0 :: 0 :: 0 :: rest) = .ok (4, some "")) ∧
    (∀ rest : List Nat,
      read_string_32bit_length (255 :: 255 :: 255 :: 255 :: rest) = .ok (4, none)) ∧
    (∀ (pf : Nat) (rest : List Nat),
      parse_element (pf + 1) "str" (0 :: 0 :: 0 :: 0 :: rest) = .ok (4, .String "") ∧
      parse_element (pf + 1) "str" (255 :: 255 :: 255 :: 255 :: rest) = .ok (4, .StringNull) ∧
      parse_element (pf + 1) "buf" (0 :: 0 :: 0 :: 0 :: rest) = .ok (4, .Buffer "") ∧
      parse_element (pf + 1) "buf" (255 :: 255 :: 255 :: 255 :: rest) = .ok (4, .BufferNull)) ∧
    (∀ s : String, WeechatData.String s ≠ WeechatData.StringNull) ∧
    (∀ s : String, WeechatData.Buffer s ≠ WeechatData.BufferNull) :=
  ⟨fun _ => rfl, fun _ => rfl, fun _ _ => ⟨rfl, rfl, rfl, rfl⟩,
   fun _ h => WeechatData.noConfusion h, fun _ h => WeechatData.noConfusion h⟩

/-- C4 (code bug): a `str`/`buf` length field that is negative and not `-1` does
not produce a `MalformedBinaryParse` error; the slice `&buffer[4..(size + 4) as
usize]` panics instead (for `-2`/`-3`/`-4` the end of the range falls below its
start; for anything smaller the sign-extended cast overshoots the buffer). -/
theorem c4_negative_length_panics :
    read_string_32bit_length (255 :: 255 :: 255 :: 254 :: []) = .panic ∧
    read_string_32bit_length (255 :: 255 :: 255 :: 251 :: []) = .panic ∧
    (read_string_32bit_length (255 :: 255 :: 255 :: 254 :: [])).isErr = false ∧
    (∀ (pf : Nat) (rest : List Nat),
      parse_element (pf + 1) "str" (255 :: 255 :: 255 :: 254 :: rest) = .panic) :=
  ⟨rfl, rfl, rfl, fun _ _ => rfl⟩

/-- C5 counterexample: a `ptr` element with a zero-length digit payload decodes
to `Pointer "0x"`, not to `Pointer "0x0"` as the claim states. -/
theorem c5_zero_length_pointer_counterexample :
    parse_element 1 "ptr" (0 :: []) = .ok (1, .Pointer "0x") ∧
    parse_element 1 "ptr" (0 :: []) ≠ .ok (1, .Pointer "0x0") := by
  refine ⟨rfl, fun h => ?_⟩
  have h2 : (PResult.ok ((1 : Nat), WeechatData.Pointer "0x") : PResult (Nat × WeechatData)) =
      .ok (1, .Pointer "0x0") := h
  have h3 : "0x" = "0x0" := WeechatData.Pointer.inj (congrArg Prod.snd (PResult.ok.inj h2))
  exact absurd h3 (by decide)

/-- C5 amended: a `ptr` element with a zero-length digit payload yields
`Pointer "0x"`; the wire null pointer is the one-byte digit payload `"0"`,
which yields `Pointer "0x0"`; payload `"1234abcd"` yields
`Pointer "0x1234abcd"`; the digits are rendered with a `0x` prefix and without
case conversion. -/
theorem c5_pointer_rendering :
    parse_element 1 "ptr" (0 :: []) = .ok (1, .Pointer "0x") ∧
    parse_element 1 "ptr" (1 :: 48 :: []) = .ok (2, .Pointer "0x0") ∧
    parse_element 1 "ptr" (8 :: 49 :: 50 :: 51 :: 52 :: 97 :: 98 :: 99 :: 100 :: []) =
      .ok (9, .Pointer "0x1234abcd") ∧
    parse_element 1 "ptr" (4 :: 65 :: 98 :: 67 :: 100 :: []) = .ok (5, .Pointer "0xAbCd") :=
  ⟨rfl, rfl, rfl, rfl⟩

/-- C8 (code bug): when a declared length announces more bytes than the buffer
holds, the length-prefixed readers do not return `MalformedBinaryParse`; the
payload slice panics with an out-of-bounds index (the plain 1/4-byte readers do
return the error). -/
theorem c8_truncated_input_panics :
    read_string_32bit_length (0 :: 0 :: 0 :: 1 :: []) = .panic ∧
    read_string_8bit_length (5 :: []) = .panic ∧
    parse_element 1 "str" (0 :: 0 :: 0 :: 1 :: []) = .panic ∧
    parse_element 1 "lon" (5 :: []) = .panic ∧
    parse_element 1 "ptr" (3 :: 48 :: []) = .panic ∧
    read_i32 [] = .err (.malformedBinaryParse "buffer too short") :=
  ⟨rfl, rfl, rfl, rfl, rfl, rfl⟩

theorem get_element_type_cons (a b c : Nat) (rest : List Nat) :
    get_element_type (a :: b :: c :: rest) = .ok (fromUtf8Lossy [a, b, c]) := by
  unfold get_element_type
  rw [if_pos (by simp)]
  rfl

theorem array_ints_decode (vals : List Int) :
    ∀ (buffer rest : List Nat) (position : Nat),
      (∀ v ∈ vals, -2 ^ 31 ≤ v ∧ v < 2 ^ 31) →
      buffer.drop position = joinFrames (vals.map encode_i32) ++ rest →
      array_ints buffer vals.length position =
        .ok (position + 4 * vals.length, vals.map WeechatData.Int) := by
  induction vals with
  | nil =>
    intro buffer rest position _ _
    simp [array_ints]
  | cons v vs ih =>
    intro buffer rest position hr hd
    have hv := hr v (by simp)
    have hdd : buffer.drop position =
        encode_i32 v ++ (joinFrames (vs.map encode_i32) ++ rest) := by
      simpa [joinFrames, List.append_assoc] using hd
    have h1 : read_i32 (buffer.drop position) = .ok v := by
      rw [hdd]; exact read_i32_encode v _ hv.1 hv.2
    have h2 : buffer.drop (position + 4) = joinFrames (vs.map encode_i32) ++ rest := by
      have hq : (buffer.drop position).drop 4 = buffer.drop (position + 4) :=
        List.drop_drop 4 position buffer
      rw [← hq, hdd]
      exact List.drop_left' (by simp [encode_i32, encode_u32])
    have h3 := ih buffer rest (position + 4) (fun w hw => hr w (by simp [hw])) h2
    show array_ints buffer (vs.length + 1) position = _
    unfold array_ints
    rw [h1]
    rw [h3]
    have harith : position + 4 + 4 * vs.length = position + 4 * (vs.length + 1) := by ring
    rw [harith]
    rfl

/-- C7 counterexample: decoding an array whose element tag is not `str`/`int`
does not always fail with `UnknownType`: with a negative count the
`Vec::with_capacity` call panics before the tag is examined. -/
theorem c7_unknown_tag_counterexample :
    read_array (97 :: 98 :: 99 :: 255 :: 255 :: 255 :: 255 :: []) = .panic ∧
    (read_array (97 :: 98 :: 99 :: 255 :: 255 :: 255 :: 255 :: [])).isUnknownTypeErr = false :=
  ⟨rfl, rfl⟩

/-- C7 amended: with a non-negative declared count, an array whose element tag
is neither `str` nor `int` fails with `UnknownType` carrying the offending tag
text; and an `int` array with non-negative count `N` succeeds, consuming exactly
`3 + 4 + 4 * N` bytes and yielding the `N` `Int` values in wire order.  (With a
negative count, `Vec::with_capacity` panics before the tag dispatch.) -/
theorem c7_array_decoding_amended :
    (∀ (b0 b1 b2 : Nat) (xs : List Nat) (count : Int),
        fromUtf8Lossy [b0, b1, b2] ≠ "str" → fromUtf8Lossy [b0, b1, b2] ≠ "int" →
        read_i32 xs = .ok count → 0 ≤ count →
        read_array (b0 :: b1 :: b2 :: xs) =
          .err (.unknownType "array isn't implemented for type"
            (found_array_type (fromUtf8Lossy [b0, b1, b2])))) ∧
    (∀ (vals : List Int) (rest : List Nat),
        (∀ v ∈ vals, -2 ^ 31 ≤ v ∧ v < 2 ^ 31) → vals.length < 2 ^ 31 →
        read_array (105 :: 110 :: 116 ::
            (encode_u32 vals.length ++ (joinFrames (vals.map encode_i32) ++ rest))) =
          .ok (7 + 4 * vals.length, vals.map WeechatData.Int)) := by
  constructor
  · intro b0 b1 b2 xs count hs hi hread hpos
    have hget := get_element_type_cons b0 b1 b2 xs
    have hdrop : (b0 :: b1 :: b2 :: xs).drop 3 = xs := rfl
    simp only [read_array, hget, hdrop, hread, if_neg (by omega : ¬count < 0)]
  · intro vals rest hr hn
    have hget := get_element_type_cons 105 110 116
      (encode_u32 vals.length ++ (joinFrames (vals.map encode_i32) ++ rest))
    have hfu : fromUtf8Lossy [105, 110, 116] = "int" := rfl
    rw [hfu] at hget
    have hcnt : read_i32 ((105 :: 110 :: 116 ::
        (encode_u32 vals.length ++ (joinFrames (vals.map encode_i32) ++ rest))).drop 3) =
        .ok (vals.length : Int) := read_i32_encode_nat vals.length _ hn
    have hdrop : (105 :: 110 :: 116 ::
        (encode_u32 vals.length ++ (joinFrames (vals.map encode_i32) ++ rest))).drop 7 =
        joinFrames (vals.map encode_i32) ++ rest := by
      simp [encode_u32]
    have harr := array_ints_decode vals _ rest 7 hr hdrop
    have htn : ((vals.length : Int)).toNat = vals.length := by omega
    simp only [read_array, hget, hcnt, if_neg (by omega : ¬(vals.length : Int) < 0), htn, harr]

/-- C7 witness: the two parts of the amended claim at concrete inputs — tag
`"abc"` with count 0, and an `int` array holding `[5, -3]`. -/
theorem c7_array_decoding_witness :
    read_array (97 :: 98 :: 99 :: (0 :: 0 :: 0 :: 0 :: [])) =
      .err (.unknownType "array isn't implemented for type"
        (found_array_type (fromUtf8Lossy [97, 98, 99]))) ∧
    read_array (105 :: 110 :: 116 ::
        (encode_u32 ([5, -3] : List Int).length ++
          (joinFrames (([5, -3] : List Int).map encode_i32) ++ []))) =
      .ok (7 + 4 * 2, [WeechatData.Int 5, WeechatData.Int (-3)]) :=
  ⟨c7_array_decoding_amended.1 97 98 99 (0 :: 0 :: 0 :: 0 :: []) 0 (by decide) (by decide)
      rfl (le_refl 0),
   c7_array_decoding_amended.2 [5, -3] [] (by decide) (by decide)⟩

/-- C10 counterexample: an `int` array element with count `-1` does not return
an empty `Array` with 7 bytes consumed; the decode panics. -/
theorem c10_negative_count_counterexample :
    read_array (105 :: 110 :: 116 :: 255 :: 255 :: 255 :: 255 :: []) = .panic ∧
    read_array (105 :: 110 :: 116 :: 255 :: 255 :: 255 :: 255 :: []) ≠ .ok (7, []) := by
  refine ⟨rfl, fun h => ?_⟩
  rw [show read_array (105 :: 110 :: 116 :: 255 :: 255 :: 255 :: 255 :: []) = PResult.panic
    from rfl] at h
  exact PResult.noConfusion h

/-- C10 amended: for every array element whose 4-byte big-endian signed count is
negative (any element tag), decoding panics — `Vec::with_capacity(count as
usize)` sign-extends the count past `isize::MAX` bytes — rather than returning
an empty `Array` or an error. -/
theorem c10_negative_count_panics (t0 t1 t2 : Nat) (xs : List Nat) (count : Int)
    (hread : read_i32 xs = .ok count) (hneg : count < 0) :
    read_array (t0 :: t1 :: t2 :: xs) = .panic := by
  have hget := get_element_type_cons t0 t1 t2 xs
  have hdrop : (t0 :: t1 :: t2 :: xs).drop 3 = xs := rfl
  simp only [read_array, hget, hdrop, hread, if_pos hneg]

/-- C10 witness: the amended claim at an `int` array with count `-2` and a
trailing byte. -/
theorem c10_negative_count_panics_witness :
    read_array (105 :: 110 :: 116 :: (255 :: 255 :: 255 :: 254 :: 9 :: [])) = .panic :=
  c10_negative_count_panics 105 110 116 (255 :: 255 :: 255 :: 254 :: 9 :: []) (-2) (by decide)
    (by norm_num)

theorem read_row_pointers_length (buffer : List Nat) :
    ∀ (pc position endp : Nat) (ptrs : List WeechatData),
      read_row_pointers buffer pc position = .ok (endp, ptrs) → ptrs.length = pc := by
  intro pc
  induction pc with
  | zero =>
    intro position endp ptrs h
    unfold read_row_pointers at h
    injection h with h'
    injection h' with h1 h2
    subst h2
    rfl
  | succ n ih =>
    intro position endp ptrs h
    unfold read_row_pointers at h
    split at h <;> try exact PResult.noConfusion h
    split at h <;> try exact PResult.noConfusion h
    next p ps heq =>
      injection h with h'
      injection h' with h1 h2
      subst h2
      simp [ih _ _ _ heq]

theorem hdata_rows_spec (pe : String → List Nat → PResult (Nat × WeechatData))
    (buffer : List Nat) (keys : List (String × String)) (pc : Nat) :
    ∀ (r position endp : Nat) (ptrs : List WeechatData) (rows : List HRow),
      hdata_rows pe buffer keys pc r position = .ok (endp, ptrs, rows) →
      ptrs.length = pc * rows.length ∧ rows.length = r := by
  intro r
  induction r with
  | zero =>
    intro position endp ptrs rows h
    unfold hdata_rows at h
    injection h with h'
    injection h' with h1 h23
    injection h23 with h2 h3
    subst h2
    subst h3
    simp
  | succ n ih =>
    intro position endp ptrs rows h
    unfold hdata_rows at h
    split at h <;> try exact PResult.noConfusion h
    next p1 rowPtrs heq1 =>
      split at h <;> try exact PResult.noConfusion h
      next p2 row heq2 =>
        split at h <;> try exact PResult.noConfusion h
        next p3 restPtrs restRows heq3 =>
          injection h with h'
          injection h' with h1 h23
          injection h23 with h2 h3
          subst h2
          subst h3
          obtain ⟨hspec1, hspec2⟩ := ih _ _ _ _ heq3
          have hlen := read_row_pointers_length buffer pc position p1 rowPtrs heq1
          constructor
          · simp only [List.length_append, List.length_cons, hlen, hspec1, hspec2]
            ring
          · simp [hspec2]

/-- C6: for every successfully decoded `Hdata`, the number of pointers per row
is `1 + (number of '/' separators in the decoded path)`, the flattened pointer
list has length `pointer-count-per-row * row-count` where the row count is
exactly the declared 4-byte big-endian count, and in particular path `"a"`
yields 1 pointer per row while `"a/b/c"` yields 3. -/
theorem c6_hdata_pointer_count (pe : String → List Nat → PResult (Nat × WeechatData))
    (buffer : List Nat) (endp : Nat) (name : String) (pointers : List WeechatData)
    (rows : List HRow)
    (h : read_hdata pe buffer = .ok (endp, name, pointers, rows)) :
    pointers.length = (1 + slashCount name) * rows.length ∧
    (∃ (name_len keys_len : Nat) (keys_str : String),
      read_string_32bit_length buffer = .ok (name_len, some name) ∧
      read_string_32bit_length (buffer.drop name_len) = .ok (keys_len, some keys_str) ∧
      read_i32 (buffer.drop (name_len + keys_len)) = .ok ((rows.length : Nat) : Int)) ∧
    1 + slashCount "a" = 1 ∧ 1 + slashCount "a/b/c" = 3 := by
  unfold read_hdata at h
  split at h <;> try exact PResult.noConfusion h
  next name_len name_raw heq1 =>
  split at h <;> try exact PResult.noConfusion h
  next name0 hequw1 =>
  split at h <;> try exact PResult.noConfusion h
  next keys_len keys_raw heq2 =>
  split at h <;> try exact PResult.noConfusion h
  next keys_owned hequw2 =>
  split at h <;> try exact PResult.noConfusion h
  next row_count heq3 =>
  split at h <;> try exact PResult.noConfusion h
  next keys heqk =>
  split at h <;> try exact PResult.noConfusion h
  next hneg =>
  split at h <;> try exact PResult.noConfusion h
  next endp0 pointers0 rows0 heqr =>
  have hname : name_raw = some name0 := by
    cases name_raw with
    | none => unfold unwrapOpt at hequw1; exact PResult.noConfusion hequw1
    | some s =>
      unfold unwrapOpt at hequw1
      injection hequw1 with hh
      rw [hh]
  have hkeys : keys_raw = some keys_owned := by
    cases keys_raw with
    | none => unfold unwrapOpt at hequw2; exact PResult.noConfusion hequw2
    | some s =>
      unfold unwrapOpt at hequw2
      injection hequw2 with hh
      rw [hh]
  subst hname
  subst hkeys
  injection h with h'
  injection h' with he hrest
  injection hrest with hn hrest2
  injection hrest2 with hp hr
  subst he
  subst hn
  subst hp
  subst hr
  obtain ⟨hs1, hs2⟩ := hdata_rows_spec pe buffer keys (slashCount name0 + 1) row_count.toNat
    (name_len + keys_len + 4) endp0 pointers0 rows0 heqr
  refine ⟨?_, ⟨name_len, keys_len, keys_owned, heq1, heq2, ?_⟩, by decide, by decide⟩
  · rw [Nat.add_comm 1 (slashCount name0)]
    exact hs1
  · have hrc : ((rows0.length : Nat) : Int) = row_count := by omega
    rw [hrc]
    exact heq3

/-- C6 witness: a one-row hdata with path `"a/b"` (2 pointers per row) and one
`int` field decodes with a flattened pointer list of length `2 * 1`. -/
theorem c6_hdata_pointer_count_witness :
    ([WeechatData.Pointer "0x1", WeechatData.Pointer "0x2"] : List WeechatData).length =
      (1 + slashCount "a/b") * ([[("k", WeechatData.Int 7)]] : List HRow).length :=
  (c6_hdata_pointer_count (fun t b => parse_element 1 t b)
      [0, 0, 0, 3, 97, 47, 98, 0, 0, 0, 5, 107, 58, 105, 110, 116, 0, 0, 0, 1,
       1, 49, 1, 50, 0, 0, 0, 7] 28 "a/b"
      [WeechatData.Pointer "0x1", WeechatData.Pointer "0x2"] [[("k", WeechatData.Int 7)]]
      rfl).1

/-- C9: the stateless decode entry point inflates from byte offset 5
unconditionally and never consults the compression-flag byte at offset 4: two
buffers identical except at offset 4 decode identically (for every inflater). -/
theorem c9_compression_flag_ignored (inflate : List Nat → PResult (List Nat)) (pf : Nat)
    (b1 b2 : List Nat) (_hlen : b1.length = b2.length)
    (hagree : ∀ i : Nat, i ≠ 4 → b1[i]? = b2[i]?) :
    from_raw_message inflate pf b1 = from_raw_message inflate pf b2 ∧
    get_raw_data inflate b1 = inflate (b1.drop 5) := by
  have hdrop : b1.drop 5 = b2.drop 5 := by
    apply List.ext_getElem?
    intro n
    rw [List.getElem?_drop, List.getElem?_drop]
    exact hagree (5 + n) (by omega)
  refine ⟨?_, rfl⟩
  unfold from_raw_message get_raw_data
  rw [hdrop]

/-- C9 witness: two five-byte frames differing only in the flag byte decode to
the same result under a concrete inflater. -/
theorem c9_compression_flag_ignored_witness :
    from_raw_message (fun _ => .ok [0, 0, 0, 0]) 1 [0, 0, 0, 5, 1] =
      from_raw_message (fun _ => .ok [0, 0, 0, 0]) 1 [0, 0, 0, 5, 0] :=
  (c9_compression_flag_ignored (fun _ => .ok [0, 0, 0, 0]) 1 [0, 0, 0, 5, 1] [0, 0, 0, 5, 0]
    rfl (fun i hi => by
      match i with
      | 0 => rfl
      | 1 => rfl
      | 2 => rfl
      | 3 => rfl
      | 4 => exact absurd rfl hi
      | n + 5 => rfl)).1

theorem drainLoop_ok_outputs (inflate : List Nat → PResult (List Nat)) (pf : Nat) :
    ∀ (d : Nat) (buffer : List Nat) (outs : List (Except WeechatParseError WeechatMessage)),
      (drainLoop inflate pf d buffer outs).halted = false →
      (∀ e, Except.error e ∉ outs) →
      ∀ e, Except.error e ∉ (drainLoop inflate pf d buffer outs).outputs := by
  intro d
  induction d with
  | zero =>
    intro buffer outs hhalt _
    exact absurd hhalt (by simp [drainLoop])
  | succ n ih =>
    intro buffer outs hhalt hfree
    by_cases hlen : 4 < buffer.length
    · cases hq : get_length buffer with
      | ok L =>
        by_cases hle : L ≤ buffer.length
        · cases hm : from_raw_message inflate pf (buffer.take L) with
          | ok m =>
            simp only [drainLoop, if_pos hlen, hq, if_pos hle, hm] at hhalt ⊢
            refine ih _ _ hhalt ?_
            intro e he
            rcases List.mem_append.mp he with h1 | h2
            · exact hfree e h1
            · simp at h2
          | err e0 =>
            simp only [drainLoop, if_pos hlen, hq, if_pos hle, hm] at hhalt
            exact Bool.noConfusion hhalt
          | panic =>
            simp only [drainLoop, if_pos hlen, hq, if_pos hle, hm] at hhalt
            exact Bool.noConfusion hhalt
          | fuelOut =>
            simp only [drainLoop, if_pos hlen, hq, if_pos hle, hm] at hhalt
            exact Bool.noConfusion hhalt
        · simp only [drainLoop, if_pos hlen, hq, if_neg hle] at hhalt ⊢
          exact hfree
      | err e0 =>
        simp only [drainLoop, if_pos hlen, hq] at hhalt
        exact Bool.noConfusion hhalt
      | panic =>
        simp only [drainLoop, if_pos hlen, hq] at hhalt
        exact Bool.noConfusion hhalt
      | fuelOut =>
        simp only [drainLoop, if_pos hlen, hq] at hhalt
        exact Bool.noConfusion hhalt
    · simp only [drainLoop, if_neg hlen] at hhalt ⊢
      exact hfree

theorem feed_chunk_ok_outputs (inflate : List Nat → PResult (List Nat)) (pf : Nat)
    (st : PState) (chunk : List Nat)
    (h1 : (feed_chunk inflate pf st chunk).halted = false)
    (h2 : st.halted = false → ∀ e, Except.error e ∉ st.outputs) :
    ∀ e, Except.error e ∉ (feed_chunk inflate pf st chunk).outputs := by
  by_cases hh : st.halted = true
  · unfold feed_chunk at h1 ⊢
    rw [if_pos hh] at h1 ⊢
    exact absurd h1 (by simp [hh])
  · have hf : st.halted = false := by revert hh; cases st.halted <;> simp
    unfold feed_chunk at h1 ⊢
    rw [if_neg hh] at h1 ⊢
    exact drainLoop_ok_outputs inflate pf _ _ _ h1 (h2 hf)

theorem foldl_feed_ok_outputs (inflate : List Nat → PResult (List Nat)) (pf : Nat) :
    ∀ (chunks : List (List Nat)) (st : PState),
      (st.halted = false → ∀ e, Except.error e ∉ st.outputs) →
      (chunks.foldl (feed_chunk inflate pf) st).halted = false →
      ∀ e, Except.error e ∉ (chunks.foldl (feed_chunk inflate pf) st).outputs := by
  intro chunks
  induction chunks with
  | nil =>
    intro st h hf
    exact h hf
  | cons c cs ih =>
    intro st h hf
    simp only [List.foldl_cons] at hf ⊢
    exact ih (feed_chunk inflate pf st c)
      (fun hff => feed_chunk_ok_outputs inflate pf st c hff h) hf

theorem foldl_feed_halted (inflate : List Nat → PResult (List Nat)) (pf : Nat) :
    ∀ (chunks : List (List Nat)) (st : PState), st.halted = true →
      chunks.foldl (feed_chunk inflate pf) st = st := by
  intro chunks
  induction chunks with
  | nil => intro st _; rfl
  | cons c cs ih =>
    intro st h
    simp only [List.foldl_cons]
    rw [show feed_chunk inflate pf st c = st from by unfold feed_chunk; rw [if_pos h]]
    exact ih st h

/-- C2: the reassembler worker is fail-fast — once an error has been emitted to
the consumer, the worker has returned, and feeding any further chunks (well
formed or not) changes nothing: no further message and no further error is ever
emitted. -/
theorem c2_fail_fast (inflate : List Nat → PResult (List Nat)) (pf : Nat)
    (cs1 cs2 : List (List Nat)) (e : WeechatParseError)
    (h : Except.error e ∈ (run_chunks inflate pf cs1).outputs) :
    run_chunks inflate pf (cs1 ++ cs2) = run_chunks inflate pf cs1 := by
  have hh : (run_chunks inflate pf cs1).halted = true := by
    by_contra hc
    have hf : (run_chunks inflate pf cs1).halted = false := by
      revert hc; cases (run_chunks inflate pf cs1).halted <;> simp
    exact foldl_feed_ok_outputs inflate pf cs1 init_state (by intro _ e0 he0; simp [init_state] at he0) hf e h
  unfold run_chunks
  rw [List.foldl_append]
  exact foldl_feed_halted inflate pf cs2 _ hh

/-- C2 witness: after a frame whose payload fails to decode, a subsequent
well-formed frame chunk produces no further output. -/
theorem c2_fail_fast_witness :
    run_chunks (fun _ => .ok []) 1 ([[0, 0, 0, 5, 0]] ++ [[0, 0, 0, 5, 1]]) =
      run_chunks (fun _ => .ok []) 1 [[0, 0, 0, 5, 0]] :=
  c2_fail_fast (fun _ => .ok []) 1 [[0, 0, 0, 5, 0]] [[0, 0, 0, 5, 1]]
    (.malformedBinaryParse "buffer too short") (by
      rw [show (run_chunks (fun _ => .ok []) 1 [[0, 0, 0, 5, 0]]).outputs =
        [Except.error (.malformedBinaryParse "buffer too short")] from rfl]
      exact List.mem_singleton.mpr rfl)

theorem read_u32_append (f t : List Nat) (h : 4 ≤ f.length) :
    read_u32 (f ++ t) = read_u32 f := by
  rcases f with _ | ⟨b0, _ | ⟨b1, _ | ⟨b2, _ | ⟨b3, rest⟩⟩⟩⟩
  · simp at h
  · simp only [List.length_cons, List.length_nil] at h; omega
  · simp only [List.length_cons, List.length_nil] at h; omega
  · simp only [List.length_cons, List.length_nil] at h; omega
  · rfl

theorem read_u32_take (f : List Nat) (n : Nat) (h4 : 4 ≤ n) :
    read_u32 (f.take n) = read_u32 f := by
  obtain ⟨k, hk⟩ := Nat.exists_eq_add_of_le h4
  subst hk
  rw [Nat.add_comm 4 k]
  rcases f with _ | ⟨b0, _ | ⟨b1, _ | ⟨b2, _ | ⟨b3, rest⟩⟩⟩⟩
  · rw [List.take_of_length_le (by simp only [List.length_nil]; omega)]
  · rw [List.take_of_length_le (by simp only [List.length_cons, List.length_nil]; omega)]
  · rw [List.take_of_length_le (by simp only [List.length_cons, List.length_nil]; omega)]
  · rw [List.take_of_length_le (by simp only [List.length_cons, List.length_nil]; omega)]
  · rfl

theorem joinFrames_length_ge (fs : List (List Nat)) (h : ∀ f ∈ fs, 1 ≤ f.length) :
    fs.length ≤ (joinFrames fs).length := by
  induction fs with
  | nil => simp [joinFrames]
  | cons f fs ih =>
    have h1 := h f (by simp)
    have h2 := ih (fun g hg => h g (by simp [hg]))
    simp only [joinFrames, List.length_append, List.length_cons]
    omega

theorem get_length_fragment (inflate : List Nat → PResult (List Nat)) (pf : Nat)
    (f p t : List Nat) (hgf : GoodFrame inflate pf f)
    (hpre : p = f.take p.length) (h4 : 4 ≤ p.length) :
    get_length (p ++ t) = .ok f.length := by
  unfold get_length
  rw [read_u32_append p t h4]
  rw [hpre, read_u32_take f p.length h4]
  exact hgf.2.1

theorem drainLoop_good (inflate : List Nat → PResult (List Nat)) (pf : Nat) :
    ∀ (fs : List (List Nat)) (p : List Nat)
      (outs : List (Except WeechatParseError WeechatMessage)) (d : Nat),
      (∀ f ∈ fs, GoodFrame inflate pf f) → TailFragment inflate pf p → fs.length < d →
      drainLoop inflate pf d (joinFrames fs ++ p) outs =
        ⟨p, outs ++ fs.map (emit inflate pf), false⟩ := by
  intro fs
  induction fs with
  | nil =>
    intro p outs d _ ht hd
    obtain ⟨n, rfl⟩ : ∃ n, d = n + 1 := ⟨d - 1, by omega⟩
    have hjp : joinFrames [] ++ p = p := by simp [joinFrames]
    rw [hjp]
    by_cases hlen : 4 < p.length
    · rcases ht with rfl | ⟨f, hgf, hlt, hpre⟩
      · simp at hlen
      · have hq : get_length p = .ok f.length := by
          have h := get_length_fragment inflate pf f p [] hgf hpre (by omega)
          simpa using h
        have hnle : ¬ f.length ≤ p.length := by omega
        simp only [drainLoop, if_pos hlen, hq, if_neg hnle, List.map_nil, List.append_nil]
    · simp only [drainLoop, if_neg hlen, List.map_nil, List.append_nil]
  | cons f fs ih =>
    intro p outs d hg ht hd
    obtain ⟨n, rfl⟩ : ∃ n, d = n + 1 := ⟨d - 1, by omega⟩
    have hgf : GoodFrame inflate pf f := hg f (by simp)
    have h5 : 5 ≤ f.length := hgf.1
    have hbuf : joinFrames (f :: fs) ++ p = f ++ (joinFrames fs ++ p) := by
      simp [joinFrames, List.append_assoc]
    rw [hbuf]
    have hlen : 4 < (f ++ (joinFrames fs ++ p)).length := by
      simp only [List.length_append]; omega
    have hq : get_length (f ++ (joinFrames fs ++ p)) = .ok f.length := by
      unfold get_length
      rw [read_u32_append f _ (by omega)]
      exact hgf.2.1
    have hle : f.length ≤ (f ++ (joinFrames fs ++ p)).length := by
      simp only [List.length_append]; omega
    have htake : (f ++ (joinFrames fs ++ p)).take f.length = f := List.take_left f _
    have hdropf : (f ++ (joinFrames fs ++ p)).drop f.length = joinFrames fs ++ p :=
      List.drop_left f _
    obtain ⟨m, hm⟩ := hgf.2.2
    have hemit : emit inflate pf f = Except.ok m := by unfold emit; rw [hm]
    simp only [drainLoop, if_pos hlen, hq, if_pos hle, htake, hdropf, hm]
    rw [ih p (outs ++ [Except.ok m]) n (fun g hgm => hg g (by simp [hgm])) ht
      (by simp only [List.length_cons] at hd; omega)]
    simp [hemit, List.append_assoc]

theorem take_drop_frames :
    ∀ (fs : List (List Nat)) (k : Nat),
      ∃ fs₁ fs₂ p, fs = fs₁ ++ fs₂ ∧
        (joinFrames fs).take k = joinFrames fs₁ ++ p ∧
        p ++ (joinFrames fs).drop k = joinFrames fs₂ ∧
        (p = [] ∨ ∃ f fs₂', fs₂ = f :: fs₂' ∧ p.length < f.length ∧ p = f.take p.length) := by
  intro fs
  induction fs with
  | nil =>
    intro k
    exact ⟨[], [], [], rfl, by simp [joinFrames], by simp [joinFrames], Or.inl rfl⟩
  | cons f fs ih =>
    intro k
    by_cases hk : f.length ≤ k
    · obtain ⟨fs₁, fs₂, p, hsplit, htake, hdrop, hp⟩ := ih (k - f.length)
      refine ⟨f :: fs₁, fs₂, p, by simp [hsplit], ?_, ?_, hp⟩
      · have h1 : joinFrames (f :: fs) = f ++ joinFrames fs := rfl
        rw [h1, List.take_append_eq_append_take, List.take_of_length_le hk, htake]
        simp [joinFrames, List.append_assoc]
      · have h1 : joinFrames (f :: fs) = f ++ joinFrames fs := rfl
        rw [h1, List.drop_append_eq_append_drop, List.drop_of_length_le hk]
        simpa using hdrop
    · push_neg at hk
      refine ⟨[], f :: fs, f.take k, by simp, ?_, ?_,
        Or.inr ⟨f, fs, rfl, ?_, ?_⟩⟩
      · have h1 : joinFrames (f :: fs) = f ++ joinFrames fs := rfl
        rw [h1, List.take_append_of_le_length (by omega)]
        simp [joinFrames]
      · have h1 : joinFrames (f :: fs) = f ++ joinFrames fs := rfl
        rw [h1, List.drop_append_of_le_length (by omega)]
        rw [← List.append_assoc, List.take_append_drop]
      · rw [List.length_take]
        omega
      · rw [List.length_take, Nat.min_eq_left (Nat.le_of_lt hk)]

/-- C1: feeding a well-formed frame byte sequence to the reassembler split at an
arbitrary byte boundary across two chunks leaves the worker in exactly the same
state as feeding all the bytes as a single chunk — and that single-chunk run
emits precisely the decoded message of each frame, in order. -/
theorem c1_reassembler_split (inflate : List Nat → PResult (List Nat)) (pf : Nat)
    (fs : List (List Nat)) (k : Nat) (hg : ∀ f ∈ fs, GoodFrame inflate pf f) :
    run_chunks inflate pf [(joinFrames fs).take k, (joinFrames fs).drop k] =
      run_chunks inflate pf [joinFrames fs] ∧
    (run_chunks inflate pf [joinFrames fs]).outputs = fs.map (emit inflate pf) := by
  have h1le : ∀ f ∈ fs, 1 ≤ f.length := fun f hf => le_trans (by norm_num) (hg f hf).1
  have hfeed : feed_chunk inflate pf init_state (joinFrames fs) =
      ⟨[], fs.map (emit inflate pf), false⟩ := by
    unfold feed_chunk init_state
    rw [if_neg (by simp)]
    have h := drainLoop_good inflate pf fs [] [] ((joinFrames fs).length + 1) hg (Or.inl rfl)
      (by have := joinFrames_length_ge fs h1le; omega)
    simpa using h
  have hsingle : run_chunks inflate pf [joinFrames fs] =
      ⟨[], fs.map (emit inflate pf), false⟩ := by
    unfold run_chunks
    simp only [List.foldl_cons, List.foldl_nil]
    exact hfeed
  obtain ⟨fs₁, fs₂, p, hsplit, htake, hdrop, hp⟩ := take_drop_frames fs k
  have hg1 : ∀ f ∈ fs₁, GoodFrame inflate pf f := fun f hf =>
    hg f (by rw [hsplit]; exact List.mem_append.mpr (Or.inl hf))
  have hg2 : ∀ f ∈ fs₂, GoodFrame inflate pf f := fun f hf =>
    hg f (by rw [hsplit]; exact List.mem_append.mpr (Or.inr hf))
  have h1le1 : ∀ f ∈ fs₁, 1 ≤ f.length := fun f hf => le_trans (by norm_num) (hg1 f hf).1
  have h1le2 : ∀ f ∈ fs₂, 1 ≤ f.length := fun f hf => le_trans (by norm_num) (hg2 f hf).1
  have htf : TailFragment inflate pf p := by
    rcases hp with rfl | ⟨f, fs₂', rfl, hlt, hpre⟩
    · exact Or.inl rfl
    · exact Or.inr ⟨f, hg2 f (by simp), hlt, hpre⟩
  have hfeed1 : feed_chunk inflate pf init_state ((joinFrames fs).take k) =
      ⟨p, fs₁.map (emit inflate pf), false⟩ := by
    unfold feed_chunk init_state
    rw [if_neg (by simp)]
    show drainLoop inflate pf ((([] : List Nat) ++ (joinFrames fs).take k).length + 1)
      (([] : List Nat) ++ (joinFrames fs).take k) [] = _
    rw [List.nil_append, htake]
    have h := drainLoop_good inflate pf fs₁ p [] ((joinFrames fs₁ ++ p).length + 1) hg1 htf
      (by have := joinFrames_length_ge fs₁ h1le1; simp only [List.length_append]; omega)
    simpa using h
  have hfeed2 : feed_chunk inflate pf ⟨p, fs₁.map (emit inflate pf), false⟩
      ((joinFrames fs).drop k) =
      ⟨[], fs₁.map (emit inflate pf) ++ fs₂.map (emit inflate pf), false⟩ := by
    unfold feed_chunk
    rw [if_neg (by simp)]
    show drainLoop inflate pf ((p ++ (joinFrames fs).drop k).length + 1)
      (p ++ (joinFrames fs).drop k) (fs₁.map (emit inflate pf)) = _
    rw [hdrop]
    have h := drainLoop_good inflate pf fs₂ [] (fs₁.map (emit inflate pf))
      ((joinFrames fs₂).length + 1) hg2 (Or.inl rfl)
      (by have := joinFrames_length_ge fs₂ h1le2; omega)
    simpa using h
  refine ⟨?_, by rw [hsingle]⟩
  rw [hsingle]
  unfold run_chunks
  simp only [List.foldl_cons, List.foldl_nil]
  rw [hfeed1, hfeed2]
  rw [hsplit, List.map_append]

/-- C1 witness: a single well-formed five-byte frame split after its second
byte decodes identically to the unsplit feed. -/
theorem c1_reassembler_split_witness :
    run_chunks (fun _ => PResult.ok [0, 0, 0, 0]) 1
        [(joinFrames [[0, 0, 0, 5, 1]]).take 2, (joinFrames [[0, 0, 0, 5, 1]]).drop 2] =
      run_chunks (fun _ => PResult.ok [0, 0, 0, 0]) 1 [joinFrames [[0, 0, 0, 5, 1]]] ∧
    (run_chunks (fun _ => PResult.ok [0, 0, 0, 0]) 1 [joinFrames [[0, 0, 0, 5, 1]]]).outputs =
      [[0, 0, 0, 5, 1]].map (emit (fun _ => PResult.ok [0, 0, 0, 0]) 1) :=
  c1_reassembler_split (fun _ => PResult.ok [0, 0, 0, 0]) 1 [[0, 0, 0, 5, 1]] 2 (by
    intro f hf
    simp only [List.mem_singleton] at hf
    subst hf
    exact ⟨by decide, rfl, ⟨⟨"", []⟩, rfl⟩⟩)
